import Mathlib

/-!
Shallow embedding of the template-driven lexer in `src/lexer.py`.

Modelling choices, stated once here:

* Source text is a `List Char`; offsets, lines and columns are `Nat`
  (Python integers are non-negative throughout the lexer's reachable states).
* A compiled regular expression (`re.compile`) is external library state; it is
  modelled by `CompiledPattern`: an anchored matcher that, given the suffix of
  the text starting at the scan offset, either consumes some prefix of that
  suffix (`some k`) or fails (`none`).  This is exactly the interface the
  source uses via `re.Pattern.match(text, pos)`, which attempts the match
  anchored at `pos` and never searches further right.  The field `wf` records
  the fact that a regex match never extends past the end of the input.
* Transform callbacks are modelled at type `List Char → List Char`.  The
  source allows arbitrary Python callables; the lexer itself only ever takes
  `len` of the produced value, and a value without `len` (such as `int`)
  crashes `Lexer.__best`, a behaviour outside every claim considered here.
* Python truthiness is modelled faithfully: `Token` defines `__len__`
  (length of `str(lexeme)`), so `if not token:` in the scan loop treats a
  token with an empty lexeme exactly like `None`.
* The unbounded `while` loop of `Lexer.tokenize` is modelled with explicit
  fuel; a result of `none` means the loop did not finish within the given
  fuel.  `Lexer.tokenize` itself runs with fuel `text.length + 1`, which is
  sufficient whenever every accepted match is non-empty.
-/

set_option linter.unusedVariables false

/-- Mirrors the module constant `NEWLINE = "\n"`. -/
def NEWLINE : Char := '\n'

/-- Mirrors `UnknownSymbolError(text, line, col)`: the single fatal error of
the lexer.  It is constructed from the tracker's current 1-based line and
column; the rendered message (excerpt plus caret diagram) is a pure function
of these two numbers and the text, so only the two numbers are recorded. -/
structure UnknownSymbolError where
  line : Nat
  col : Nat
  deriving Repr, DecidableEq

/-- Mirrors class `Token` (fields `token_type, lexeme, start, end, line,
column`); `end` is a Lean keyword, renamed `end_`. -/
structure Token where
  token_type : String
  lexeme : List Char
  start : Nat
  end_ : Nat
  line : Nat
  column : Nat
  deriving Repr, DecidableEq

/-- Model of a compiled `re` pattern as used through
`re.Pattern.match(text, pos)`: `consume s` is given the suffix of the text
that starts at the scan offset and returns the number of characters matched
there (anchored at the head of `s`), or `none` when the pattern does not
match at that exact position.  `wf` is the library guarantee that a match
never runs past the end of the input. -/
structure CompiledPattern where
  consume : List Char → Option Nat
  wf : ∀ s k, consume s = some k → k ≤ s.length

/-- Mirrors the two-line tail of `TokenTemplate.match`:
`if self.callback: value = self.callback(value)`. -/
def applyCallback : Option (List Char → List Char) → List Char → List Char
  | some f, v => f v
  | none, v => v

/-- Mirrors class `TokenTemplate` (fields `token_type, regular_expression,
callback`). -/
structure TokenTemplate where
  token_type : String
  regular_expression : CompiledPattern
  callback : Option (List Char → List Char)

/-- Mirrors the newline loop of `TokenTemplate.match`:
`for char in value: if char == NEWLINE: line += 1; column = 1`. -/
def countAdvance (value : List Char) (line column : Nat) : Nat × Nat :=
  value.foldl (fun lc c => if c = NEWLINE then (lc.1 + 1, 1) else lc) (line, column)

/-- Number of newline characters in a list (specification-side measure used
to state the newline-accounting claims). -/
def countNL : List Char → Nat
  | [] => 0
  | c :: cs => (if c = NEWLINE then 1 else 0) + countNL cs

/-- Mirrors `TokenTemplate.match(self, text, start, line, column)` (named
`matchAt` because `match` is a Lean keyword): attempt the compiled pattern
anchored at `start`; on failure return `None`; on success compute
`end = matched.end()`, run the newline loop over the raw matched substring,
apply the optional callback, and build the token. -/
def TokenTemplate.matchAt (t : TokenTemplate) (text : List Char)
    (start line column : Nat) : Option Token :=
  match t.regular_expression.consume (text.drop start) with
  | none => none
  | some k =>
    let value := (text.drop start).take k
    let lc := countAdvance value line column
    some ⟨t.token_type, applyCallback t.callback value, start, start + k, lc.1, lc.2⟩

/-- Mirrors class `ProgramCounter` (fields `start, line, column`). -/
structure ProgramCounter where
  start : Nat
  line : Nat
  column : Nat
  deriving Repr, DecidableEq

/-- Mirrors `ProgramCounter.__init__`: offset 0, line 1, column 1. -/
def ProgramCounter.init : ProgramCounter := ⟨0, 1, 1⟩

/-- Mirrors `ProgramCounter.current()`. -/
def ProgramCounter.current (pc : ProgramCounter) : Nat × Nat × Nat :=
  (pc.line, pc.start, pc.column)

/-- Mirrors `ProgramCounter.accept(token)`: the old line is compared before
any field is overwritten; then `start` and `line` are set unconditionally. -/
def ProgramCounter.accept (pc : ProgramCounter) (token : Token) : ProgramCounter :=
  if token.line ≠ pc.line then ⟨token.end_, token.line, 1⟩
  else ⟨token.end_, token.line, pc.column + (token.end_ - token.start)⟩

/-- Mirrors class `Lexer`: holds the ordered template sequence. -/
structure Lexer where
  templates : List TokenTemplate

/-- Mirrors `Lexer.__best(best, other)`.  Note: it compares the length of the
(possibly transformed) `lexeme`, and on equality returns `other`. -/
def Lexer.best (best other : Token) : Token :=
  if best.lexeme.length > other.lexeme.length then best else other

/-- One iteration of the `for template in self.templates` loop inside
`Lexer.tokenize`.  Python truthiness is modelled exactly: `if not token:`
skips both `None` and a token whose lexeme has length 0 (`Token.__len__`),
and `if not best:` likewise tests the accumulator's truthiness. -/
def Lexer.scanStep (text : List Char) (pc : ProgramCounter)
    (best : Option Token) (template : TokenTemplate) : Option Token :=
  match template.matchAt text pc.start pc.line pc.column with
  | none => best
  | some token =>
    if token.lexeme.length = 0 then best
    else
      match best with
      | none => some token
      | some b => if b.lexeme.length = 0 then some token else some (Lexer.best b token)

/-- The whole `for template in self.templates` loop of `Lexer.tokenize`,
producing the winning match (if any) at the tracker's current position. -/
def Lexer.bestMatch (templates : List TokenTemplate) (text : List Char)
    (pc : ProgramCounter) : Option Token :=
  templates.foldl (Lexer.scanStep text pc) none

/-- The winner that passes the `if not best:` guard and is actually accepted
by `Lexer.tokenize` (again with Python truthiness: a falsy winner raises). -/
def Lexer.acceptedBest (templates : List TokenTemplate) (text : List Char)
    (pc : ProgramCounter) : Option Token :=
  match Lexer.bestMatch templates text pc with
  | none => none
  | some b => if b.lexeme.length = 0 then none else some b

/-- Mirrors the `while not self.__start == len(text)` loop of
`Lexer.tokenize`, with fuel standing in for Python's unbounded iteration:
`none` means the loop performed `fuel` iterations without finishing, i.e. the
Python loop would still be running. -/
def Lexer.tokenizeAux (templates : List TokenTemplate) (text : List Char) :
    Nat → ProgramCounter → List Token → Option (Except UnknownSymbolError (List Token))
  | 0, _, _ => none
  | fuel + 1, pc, acc =>
    if pc.start = text.length then some (Except.ok acc)
    else
      match Lexer.bestMatch templates text pc with
      | none => some (Except.error ⟨pc.line, pc.column⟩)
      | some best =>
        if best.lexeme.length = 0 then some (Except.error ⟨pc.line, pc.column⟩)
        else Lexer.tokenizeAux templates text fuel (pc.accept best) (acc ++ [best])

/-- Mirrors `Lexer.tokenize(text, filter_types)`: run the scan loop from a
fresh `ProgramCounter` and an empty buffer, then drop tokens whose
`token_type` is in `filter_types`.  Fuel `text.length + 1` bounds the loop;
it is sufficient whenever every accepted match is non-empty.  Python's
default argument (`filter_types or []`) makes a missing argument behave as
the empty list. -/
def Lexer.tokenize (l : Lexer) (text : List Char) (filter_types : List String) :
    Option (Except UnknownSymbolError (List Token)) :=
  (Lexer.tokenizeAux l.templates text (text.length + 1) ProgramCounter.init []).map
    (Except.map (fun tokens => tokens.filter (fun x => !(filter_types.contains x.token_type))))

/-- The truthy match (if any) that one template contributes to the
disambiguation loop: its `matchAt` result, with a falsy (empty-lexeme) token
identified with no match, exactly as the `if not token: continue` line does. -/
def truthyTok (template : TokenTemplate) (text : List Char)
    (pc : ProgramCounter) : Option Token :=
  match template.matchAt text pc.start pc.line pc.column with
  | none => none
  | some tok => if tok.lexeme.length = 0 then none else some tok

/-- All truthy matches at the current position, in template order. -/
def truthyMatches (templates : List TokenTemplate) (text : List Char)
    (pc : ProgramCounter) : List Token :=
  templates.filterMap (fun t => truthyTok t text pc)

/-- Half-open spans of a token list chain exactly from offset `o` to offset
`e`: the first token starts at `o`, each token starts where the previous one
ended, and the last token ends at `e`. -/
def spansChain : Nat → List Token → Nat → Bool
  | o, [], e => o == e
  | o, t :: ts, e => (t.start == o) && spansChain t.end_ ts e

/-- Tracker states reachable by the scan loop of `Lexer.tokenize` on the
given templates and text, starting from a fresh counter. -/
inductive Reaches (templates : List TokenTemplate) (text : List Char) :
    ProgramCounter → Prop
  | init : Reaches templates text ProgramCounter.init
  | step {pc : ProgramCounter} {tok : Token} :
      Reaches templates text pc → pc.start ≠ text.length →
      Lexer.acceptedBest templates text pc = some tok →
      Reaches templates text (pc.accept tok)

/-- Anchored matcher of a fixed literal string (the model of a regex such as
`::=` that matches only itself). -/
def litConsume (lit : List Char) (s : List Char) : Option Nat :=
  if s.take lit.length = lit then some lit.length else none

/-- Compiled pattern for a literal string. -/
def litPat (lit : List Char) : CompiledPattern :=
  ⟨litConsume lit, fun s k h => by
    unfold litConsume at h
    split at h
    · rename_i heq
      have hk : lit.length = k := Option.some.inj h
      calc k = lit.length := hk.symm
        _ = (s.take lit.length).length := by rw [heq]
        _ ≤ s.length := by rw [List.length_take]; omega
    · exact absurd h (by simp)⟩

/-- Length of the maximal run of characters satisfying `cls` at the head of
the list (the greedy semantics of a character-class `+` regex). -/
def runLength (cls : Char → Bool) : List Char → Nat
  | [] => 0
  | c :: cs => if cls c then runLength cls cs + 1 else 0

/-- Compiled pattern for a character-class `+` regex such as `[a-z]+`. -/
def plusPat (cls : Char → Bool) : CompiledPattern :=
  ⟨fun s => if runLength cls s = 0 then none else some (runLength cls s),
   fun s k h => by
    have hle : ∀ t : List Char, runLength cls t ≤ t.length := by
      intro t
      induction t with
      | nil => simp [runLength]
      | cons c cs ih => simp only [runLength, List.length_cons]; split <;> omega
    dsimp only at h
    split at h
    · exact absurd h (by simp)
    · have hk := Option.some.inj h
      have := hle s
      omega⟩

/-- Compiled pattern matching the empty string at every position (the model
of a nullable regex such as `a*` at a position where it matches nothing). -/
def epsPat : CompiledPattern :=
  ⟨fun _ => some 0, fun s k h => by
    have hk := Option.some.inj h
    omega⟩

/-- Concrete template: keyword literal `for` (scenario 3 of the spec). -/
def tplKEYWORD : TokenTemplate := ⟨"KEYWORD", litPat ['f', 'o', 'r'], none⟩

/-- Concrete template: word `[a-z]+` (scenario 3 of the spec). -/
def tplWORD : TokenTemplate :=
  ⟨"WORD", plusPat (fun c => 'a' ≤ c && c ≤ 'z'), none⟩

/-- Concrete template: literal `abc` with a transform that shortens the
value to the single character `x`. -/
def tplA3 : TokenTemplate := ⟨"A", litPat ['a', 'b', 'c'], some (fun _ => ['x'])⟩

/-- Concrete template: literal `ab`, no transform. -/
def tplB2 : TokenTemplate := ⟨"B", litPat ['a', 'b'], none⟩

/-- Concrete template: literal `c`, no transform. -/
def tplC1 : TokenTemplate := ⟨"C", litPat ['c'], none⟩

/-- Concrete template: literal `a`, no transform. -/
def tplA : TokenTemplate := ⟨"A1", litPat ['a'], none⟩

/-- Concrete template: literal `b`, no transform. -/
def tplB : TokenTemplate := ⟨"B1", litPat ['b'], none⟩

/-- Concrete template: matches the empty string, with a transform that makes
the lexeme non-empty, so the empty match is accepted and the loop stalls. -/
def tplEPS : TokenTemplate := ⟨"EPS", epsPat, some (fun _ => ['x'])⟩

/-- Concrete template: the multi-line literal `a\nb`. -/
def tplNL : TokenTemplate := ⟨"NL", litPat ['a', '\n', 'b'], none⟩

/-- Concrete template: literal `12` with a transform to the one-character
value `q`. -/
def tplNUM : TokenTemplate := ⟨"NUM", litPat ['1', '2'], some (fun _ => ['q'])⟩

/-- The token produced by `tplEPS` at a fresh counter. -/
def tokEPS : Token := ⟨"EPS", ['x'], 0, 0, 1, 1⟩

/-- Last element of a token list, if any (used to state which template wins
a tie in the disambiguation loop). -/
def lastTok : List Token → Option Token
  | [] => none
  | [t] => some t
  | _ :: t :: ts => lastTok (t :: ts)

/-! ### Basic lemmas about the embedded definitions -/

theorem countAdvance_cons (c : Char) (cs : List Char) (line column : Nat) :
    countAdvance (c :: cs) line column =
      if c = NEWLINE then countAdvance cs (line + 1) 1
      else countAdvance cs line column := by
  by_cases hc : c = NEWLINE
  · subst hc
    simp [countAdvance, List.foldl_cons]
  · simp [countAdvance, List.foldl_cons, hc]

theorem countAdvance_eq (v : List Char) (line column : Nat) :
    countAdvance v line column =
      (line + countNL v, if countNL v = 0 then column else 1) := by
  induction v generalizing line column with
  | nil => simp [countAdvance, countNL]
  | cons c cs ih =>
    rw [countAdvance_cons]
    by_cases hc : c = NEWLINE
    · rw [if_pos hc, ih]
      have h1 : countNL (c :: cs) = 1 + countNL cs := by simp [countNL, hc]
      rw [h1]
      simp only [Prod.mk.injEq]
      refine ⟨by omega, ?_⟩
      rw [if_neg (show ¬(1 + countNL cs = 0) by omega)]
      split <;> rfl
    · rw [if_neg hc, ih]
      have h1 : countNL (c :: cs) = countNL cs := by simp [countNL, hc]
      rw [h1]

theorem matchAt_eq_some {t : TokenTemplate} {text : List Char}
    {start line column : Nat} {tok : Token}
    (h : t.matchAt text start line column = some tok) :
    ∃ k, t.regular_expression.consume (text.drop start) = some k ∧
      tok = ⟨t.token_type, applyCallback t.callback ((text.drop start).take k),
             start, start + k, line + countNL ((text.drop start).take k),
             if countNL ((text.drop start).take k) = 0 then column else 1⟩ := by
  unfold TokenTemplate.matchAt at h
  split at h
  · exact absurd h (by simp)
  · rename_i k hk
    refine ⟨k, hk, ?_⟩
    have h2 := Option.some.inj h
    rw [← h2, countAdvance_eq]

theorem accept_start (pc : ProgramCounter) (tok : Token) :
    (pc.accept tok).start = tok.end_ := by
  unfold ProgramCounter.accept; split <;> rfl

theorem accept_line (pc : ProgramCounter) (tok : Token) :
    (pc.accept tok).line = tok.line := by
  unfold ProgramCounter.accept; split <;> rfl

theorem best_or (b u : Token) : Lexer.best b u = b ∨ Lexer.best b u = u := by
  unfold Lexer.best
  split
  · exact Or.inl rfl
  · exact Or.inr rfl

theorem best_len_left (b u : Token) :
    b.lexeme.length ≤ (Lexer.best b u).lexeme.length := by
  unfold Lexer.best; split <;> omega

theorem best_len_right (b u : Token) :
    u.lexeme.length ≤ (Lexer.best b u).lexeme.length := by
  unfold Lexer.best; split <;> omega

theorem scanStep_eq (text : List Char) (pc : ProgramCounter)
    (best : Option Token) (template : TokenTemplate) :
    Lexer.scanStep text pc best template =
      match truthyTok template text pc, best with
      | none, b => b
      | some tok, none => some tok
      | some tok, some b =>
          if b.lexeme.length = 0 then some tok else some (Lexer.best b tok) := by
  unfold Lexer.scanStep truthyTok
  cases hm : template.matchAt text pc.start pc.line pc.column with
  | none => cases best <;> rfl
  | some tok =>
    by_cases h0 : tok.lexeme.length = 0
    · simp only [if_pos h0]
    · simp only [if_neg h0]
      cases best <;> rfl

theorem truthyTok_inv {template : TokenTemplate} {text : List Char}
    {pc : ProgramCounter} {tok : Token}
    (h : truthyTok template text pc = some tok) :
    template.matchAt text pc.start pc.line pc.column = some tok
    ∧ tok.lexeme.length ≠ 0 := by
  unfold truthyTok at h
  split at h
  · exact absurd h (by simp)
  · rename_i u hu
    revert h
    split
    · intro h; exact absurd h (by simp)
    · rename_i h0
      intro h
      have he : u = tok := Option.some.inj h
      exact ⟨he ▸ hu, he ▸ h0⟩

theorem foldl_scanStep_isSome (text : List Char) (pc : ProgramCounter) :
    ∀ (ts : List TokenTemplate) (b : Token),
      ts.foldl (Lexer.scanStep text pc) (some b) ≠ none := by
  intro ts
  induction ts with
  | nil => intro b h; exact Option.noConfusion h
  | cons t ts ih =>
    intro b
    rw [List.foldl_cons, scanStep_eq]
    cases hm : truthyTok t text pc with
    | none => exact ih b
    | some u =>
      dsimp only
      split
      · exact ih u
      · exact ih (Lexer.best b u)

theorem foldl_scanStep_none (text : List Char) (pc : ProgramCounter) :
    ∀ (ts : List TokenTemplate) (acc : Option Token),
      ts.foldl (Lexer.scanStep text pc) acc = none →
      acc = none ∧ ts.filterMap (fun t => truthyTok t text pc) = [] := by
  intro ts
  induction ts with
  | nil => intro acc h; exact ⟨h, rfl⟩
  | cons t ts ih =>
    intro acc h
    rw [List.foldl_cons, scanStep_eq] at h
    rw [List.filterMap_cons]
    cases hm : truthyTok t text pc with
    | none =>
      rw [hm] at h
      dsimp only at h ⊢
      exact ih acc h
    | some u =>
      exfalso
      rw [hm] at h
      cases acc with
      | none =>
        dsimp only at h
        exact foldl_scanStep_isSome text pc ts u h
      | some b =>
        dsimp only at h
        revert h
        split
        · intro h; exact foldl_scanStep_isSome text pc ts u h
        · intro h; exact foldl_scanStep_isSome text pc ts (Lexer.best b u) h

theorem foldl_scanStep_mem (text : List Char) (pc : ProgramCounter) :
    ∀ (ts : List TokenTemplate) (acc : Option Token) (tok : Token),
      ts.foldl (Lexer.scanStep text pc) acc = some tok →
      acc = some tok ∨ tok ∈ ts.filterMap (fun t => truthyTok t text pc) := by
  intro ts
  induction ts with
  | nil => intro acc tok h; exact Or.inl h
  | cons t ts ih =>
    intro acc tok h
    rw [List.foldl_cons, scanStep_eq] at h
    rw [List.filterMap_cons]
    cases hm : truthyTok t text pc with
    | none =>
      rw [hm] at h
      dsimp only at h ⊢
      exact ih acc tok h
    | some u =>
      rw [hm] at h
      dsimp only at h ⊢
      cases acc with
      | none =>
        dsimp only at h
        cases ih (some u) tok h with
        | inl h1 =>
          refine Or.inr ?_
          rw [← Option.some.inj h1]
          exact List.mem_cons_self u _
        | inr h1 => exact Or.inr (List.mem_cons_of_mem u h1)
      | some b =>
        dsimp only at h
        revert h
        split
        · intro h
          cases ih (some u) tok h with
          | inl h1 =>
            refine Or.inr ?_
            rw [← Option.some.inj h1]
            exact List.mem_cons_self u _
          | inr h1 => exact Or.inr (List.mem_cons_of_mem u h1)
        · intro h
          cases ih (some (Lexer.best b u)) tok h with
          | inl h1 =>
            cases best_or b u with
            | inl hb =>
              rw [hb] at h1
              exact Or.inl h1
            | inr hb =>
              rw [hb] at h1
              refine Or.inr ?_
              rw [← Option.some.inj h1]
              exact List.mem_cons_self u _
          | inr h1 => exact Or.inr (List.mem_cons_of_mem u h1)

theorem foldl_scanStep_le (text : List Char) (pc : ProgramCounter) :
    ∀ (ts : List TokenTemplate) (acc : Option Token) (tok : Token),
      ts.foldl (Lexer.scanStep text pc) acc = some tok →
      (∀ u ∈ ts.filterMap (fun t => truthyTok t text pc),
          u.lexeme.length ≤ tok.lexeme.length)
      ∧ (∀ b, acc = some b → b.lexeme.length ≤ tok.lexeme.length) := by
  intro ts
  induction ts with
  | nil =>
    intro acc tok h
    refine ⟨by intro u hu; exact absurd hu (by simp), ?_⟩
    intro b hb
    rw [hb] at h
    rw [Option.some.inj h]
  | cons t ts ih =>
    intro acc tok h
    rw [List.foldl_cons, scanStep_eq] at h
    rw [List.filterMap_cons]
    cases hm : truthyTok t text pc with
    | none =>
      rw [hm] at h
      dsimp only at h ⊢
      exact ih acc tok h
    | some u =>
      rw [hm] at h
      dsimp only at h ⊢
      cases acc with
      | none =>
        dsimp only at h
        have H := ih (some u) tok h
        refine ⟨?_, ?_⟩
        · intro v hv
          cases List.mem_cons.mp hv with
          | inl h1 => rw [h1]; exact H.2 u rfl
          | inr h1 => exact H.1 v h1
        · intro b hb; exact Option.noConfusion hb
      | some b =>
        dsimp only at h
        revert h
        split
        · rename_i hb0
          intro h
          have H := ih (some u) tok h
          refine ⟨?_, ?_⟩
          · intro v hv
            cases List.mem_cons.mp hv with
            | inl h1 => rw [h1]; exact H.2 u rfl
            | inr h1 => exact H.1 v h1
          · intro b' hb'
            have hb'' : b' = b := (Option.some.inj hb').symm
            rw [hb'', hb0]
            exact Nat.zero_le _
        · rename_i hb0
          intro h
          have H := ih (some (Lexer.best b u)) tok h
          refine ⟨?_, ?_⟩
          · intro v hv
            cases List.mem_cons.mp hv with
            | inl h1 =>
              rw [h1]
              exact le_trans (best_len_right b u) (H.2 _ rfl)
            | inr h1 => exact H.1 v h1
          · intro b' hb'
            have hb'' : b' = b := (Option.some.inj hb').symm
            rw [hb'']
            exact le_trans (best_len_left b u) (H.2 _ rfl)

theorem lastTok_cons_some : ∀ (l : List Token) (a : Token),
    ∃ w, lastTok (a :: l) = some w := by
  intro l
  induction l with
  | nil => intro a; exact ⟨a, rfl⟩
  | cons b bs ih => intro a; exact ih b

theorem foldl_scanStep_tie (text : List Char) (pc : ProgramCounter) (L : Nat) :
    ∀ (ts : List TokenTemplate) (acc : Option Token),
      (∀ u ∈ ts.filterMap (fun t => truthyTok t text pc), u.lexeme.length = L) →
      (∀ b, acc = some b → b.lexeme.length = L ∧ b.lexeme.length ≠ 0) →
      ts.foldl (Lexer.scanStep text pc) acc =
        match lastTok (ts.filterMap (fun t => truthyTok t text pc)) with
        | some u => some u
        | none => acc := by
  intro ts
  induction ts with
  | nil => intro acc h1 h2; rfl
  | cons t ts ih =>
    intro acc h1 h2
    rw [List.foldl_cons, scanStep_eq]
    rw [List.filterMap_cons] at h1 ⊢
    cases hm : truthyTok t text pc with
    | none =>
      rw [hm] at h1
      dsimp only at h1 ⊢
      exact ih acc h1 h2
    | some u =>
      rw [hm] at h1
      dsimp only at h1 ⊢
      have hu : u.lexeme.length = L := h1 u (List.mem_cons_self u _)
      have hu0 : u.lexeme.length ≠ 0 := (truthyTok_inv hm).2
      have h1' : ∀ v ∈ ts.filterMap (fun t => truthyTok t text pc),
          v.lexeme.length = L := fun v hv => h1 v (List.mem_cons_of_mem u hv)
      have hacc : ∀ b, (some u : Option Token) = some b →
          b.lexeme.length = L ∧ b.lexeme.length ≠ 0 := by
        intro b hb
        have hbu : b = u := (Option.some.inj hb).symm
        rw [hbu]
        exact ⟨hu, hu0⟩
      cases acc with
      | none =>
        dsimp only
        rw [ih (some u) h1' hacc]
        cases hfm : ts.filterMap (fun t => truthyTok t text pc) with
        | nil => rfl
        | cons v vs =>
          obtain ⟨w, hw⟩ := lastTok_cons_some vs v
          rw [show lastTok (u :: v :: vs) = lastTok (v :: vs) from rfl, hw]
      | some b =>
        dsimp only
        obtain ⟨hbL, hb0⟩ := h2 b rfl
        rw [if_neg hb0]
        have hbu : Lexer.best b u = u := by
          unfold Lexer.best
          rw [if_neg (show ¬(b.lexeme.length > u.lexeme.length) by omega)]
        rw [hbu]
        rw [ih (some u) h1' hacc]
        cases hfm : ts.filterMap (fun t => truthyTok t text pc) with
        | nil => rfl
        | cons v vs =>
          obtain ⟨w, hw⟩ := lastTok_cons_some vs v
          rw [show lastTok (u :: v :: vs) = lastTok (v :: vs) from rfl, hw]

theorem bestMatch_mem {templates : List TokenTemplate} {text : List Char}
    {pc : ProgramCounter} {tok : Token}
    (h : Lexer.bestMatch templates text pc = some tok) :
    tok ∈ truthyMatches templates text pc := by
  unfold Lexer.bestMatch at h
  unfold truthyMatches
  cases foldl_scanStep_mem text pc templates none tok h with
  | inl h1 => exact absurd h1 (by simp)
  | inr h1 => exact h1

theorem bestMatch_max {templates : List TokenTemplate} {text : List Char}
    {pc : ProgramCounter} {tok : Token}
    (h : Lexer.bestMatch templates text pc = some tok) :
    ∀ u ∈ truthyMatches templates text pc,
      u.lexeme.length ≤ tok.lexeme.length := by
  unfold Lexer.bestMatch at h
  unfold truthyMatches
  exact (foldl_scanStep_le text pc templates none tok h).1

theorem bestMatch_none {templates : List TokenTemplate} {text : List Char}
    {pc : ProgramCounter} (h : Lexer.bestMatch templates text pc = none) :
    truthyMatches templates text pc = [] := by
  unfold Lexer.bestMatch at h
  unfold truthyMatches
  exact (foldl_scanStep_none text pc templates none h).2

theorem mem_truthyMatches {templates : List TokenTemplate} {text : List Char}
    {pc : ProgramCounter} {tok : Token}
    (h : tok ∈ truthyMatches templates text pc) :
    ∃ t, t ∈ templates ∧ truthyTok t text pc = some tok := by
  unfold truthyMatches at h
  exact List.mem_filterMap.mp h

theorem acceptedBest_eq {templates : List TokenTemplate} {text : List Char}
    {pc : ProgramCounter} {b : Token}
    (h1 : Lexer.bestMatch templates text pc = some b)
    (h2 : b.lexeme.length ≠ 0) :
    Lexer.acceptedBest templates text pc = some b := by
  unfold Lexer.acceptedBest
  rw [h1]
  dsimp only
  rw [if_neg h2]

theorem acceptedBest_inv {templates : List TokenTemplate} {text : List Char}
    {pc : ProgramCounter} {tok : Token}
    (h : Lexer.acceptedBest templates text pc = some tok) :
    Lexer.bestMatch templates text pc = some tok ∧ tok.lexeme.length ≠ 0 := by
  unfold Lexer.acceptedBest at h
  split at h
  · exact absurd h (by simp)
  · rename_i b hb
    revert h
    split
    · intro h; exact absurd h (by simp)
    · rename_i h0
      intro h
      have he : b = tok := Option.some.inj h
      exact ⟨he ▸ hb, he ▸ h0⟩

theorem bestMatch_token_fields {templates : List TokenTemplate} {text : List Char}
    {pc : ProgramCounter} {tok : Token}
    (h : Lexer.bestMatch templates text pc = some tok) :
    tok.start = pc.start
    ∧ tok.line = pc.line + countNL ((text.drop pc.start).take (tok.end_ - pc.start))
    ∧ pc.start ≤ tok.end_
    ∧ (pc.start ≤ text.length → tok.end_ ≤ text.length) := by
  obtain ⟨t, ht, htk⟩ := mem_truthyMatches (bestMatch_mem h)
  obtain ⟨hma, h0⟩ := truthyTok_inv htk
  obtain ⟨k, hk, rfl⟩ := matchAt_eq_some hma
  have hwf := t.regular_expression.wf _ _ hk
  rw [List.length_drop] at hwf
  refine ⟨rfl, ?_, by dsimp only; omega, ?_⟩
  · dsimp only
    have he : pc.start + k - pc.start = k := by omega
    rw [he]
  · intro hle
    dsimp only
    omega

theorem accept_fix {pc : ProgramCounter} {tok : Token}
    (h1 : tok.start = pc.start) (h2 : tok.end_ = tok.start)
    (h3 : tok.line = pc.line) : pc.accept tok = pc := by
  unfold ProgramCounter.accept
  rw [if_neg (by rw [h3]; exact fun hne => hne rfl)]
  cases pc with
  | mk s l c =>
    simp only [ProgramCounter.mk.injEq]
    refine ⟨?_, ?_, ?_⟩
    · rw [h2, h1]
    · rw [h3]
    · rw [h2]
      omega

theorem bestMatch_all_none {templates : List TokenTemplate} {text : List Char}
    {pc : ProgramCounter}
    (h : ∀ t ∈ templates, t.matchAt text pc.start pc.line pc.column = none) :
    Lexer.bestMatch templates text pc = none := by
  unfold Lexer.bestMatch
  induction templates with
  | nil => rfl
  | cons t ts ih =>
    rw [List.foldl_cons]
    have ht : Lexer.scanStep text pc none t = none := by
      unfold Lexer.scanStep
      rw [h t (List.mem_cons_self t ts)]
    rw [ht]
    exact ih (fun u hu => h u (List.mem_cons_of_mem t hu))

theorem reaches_start_le {templates : List TokenTemplate} {text : List Char}
    {pc : ProgramCounter} (h : Reaches templates text pc) :
    pc.start ≤ text.length := by
  induction h with
  | init => exact Nat.zero_le _
  | @step q tok hq hne hb ih =>
    rw [accept_start]
    obtain ⟨hbm, h0⟩ := acceptedBest_inv hb
    exact (bestMatch_token_fields hbm).2.2.2 ih

theorem tokenizeAux_stall {templates : List TokenTemplate} {text : List Char}
    {pc : ProgramCounter} {tok : Token}
    (hne : pc.start ≠ text.length)
    (hb : Lexer.acceptedBest templates text pc = some tok)
    (he : tok.end_ = tok.start) :
    pc.accept tok = pc ∧ ∀ fuel acc, Lexer.tokenizeAux templates text fuel pc acc = none := by
  obtain ⟨hbm, h0⟩ := acceptedBest_inv hb
  obtain ⟨hs, hl, _, _⟩ := bestMatch_token_fields hbm
  have hfix : pc.accept tok = pc := by
    refine accept_fix hs he ?_
    rw [hl]
    have hk : tok.end_ - pc.start = 0 := by omega
    rw [hk]
    rfl
  refine ⟨hfix, ?_⟩
  intro fuel
  induction fuel with
  | zero => intro acc; rfl
  | succ f ih =>
    intro acc
    unfold Lexer.tokenizeAux
    rw [if_neg hne, hbm]
    dsimp only
    rw [if_neg h0, hfix]
    exact ih (acc ++ [tok])

theorem tokenizeAux_divergence_lift {templates : List TokenTemplate} {text : List Char}
    {pc : ProgramCounter} (h : Reaches templates text pc)
    (hdiv : ∀ fuel acc, Lexer.tokenizeAux templates text fuel pc acc = none) :
    ∀ fuel acc, Lexer.tokenizeAux templates text fuel ProgramCounter.init acc = none := by
  induction h with
  | init => exact hdiv
  | @step q tok hq hne hb ih =>
    refine ih ?_
    intro fuel acc
    obtain ⟨hbm, h0⟩ := acceptedBest_inv hb
    cases fuel with
    | zero => rfl
    | succ f =>
      unfold Lexer.tokenizeAux
      rw [if_neg hne, hbm]
      dsimp only
      rw [if_neg h0]
      exact hdiv f (acc ++ [tok])

theorem tokenizeAux_term {templates : List TokenTemplate} {text : List Char}
    (H : ∀ q t, Reaches templates text q →
      Lexer.acceptedBest templates text q = some t → t.start < t.end_) :
    ∀ fuel pc acc, text.length - pc.start < fuel → Reaches templates text pc →
      Lexer.tokenizeAux templates text fuel pc acc ≠ none := by
  intro fuel
  induction fuel with
  | zero =>
    intro pc acc hlt
    exact absurd hlt (Nat.not_lt_zero _)
  | succ f ih =>
    intro pc acc hlt hr
    unfold Lexer.tokenizeAux
    by_cases hend : pc.start = text.length
    · rw [if_pos hend]
      exact fun h => Option.noConfusion h
    · rw [if_neg hend]
      cases hbm : Lexer.bestMatch templates text pc with
      | none => exact fun h => Option.noConfusion h
      | some b =>
        dsimp only
        by_cases h0 : b.lexeme.length = 0
        · rw [if_pos h0]
          exact fun h => Option.noConfusion h
        · rw [if_neg h0]
          have hacc : Lexer.acceptedBest templates text pc = some b :=
            acceptedBest_eq hbm h0
          have hprog := H pc b hr hacc
          obtain ⟨hs, _, _, hle⟩ := bestMatch_token_fields hbm
          have hqle := reaches_start_le hr
          have hendle := hle hqle
          refine ih (pc.accept b) (acc ++ [b]) ?_ (Reaches.step hr hend hacc)
          rw [accept_start]
          omega

theorem tokenizeAux_chain {templates : List TokenTemplate} {text : List Char} :
    ∀ (fuel : Nat) (pc : ProgramCounter) (acc toks : List Token),
      Lexer.tokenizeAux templates text fuel pc acc = some (Except.ok toks) →
      ∃ rest, toks = acc ++ rest ∧ spansChain pc.start rest text.length = true := by
  intro fuel
  induction fuel with
  | zero =>
    intro pc acc toks h
    exact absurd h (by simp [Lexer.tokenizeAux])
  | succ f ih =>
    intro pc acc toks h
    unfold Lexer.tokenizeAux at h
    by_cases hend : pc.start = text.length
    · rw [if_pos hend] at h
      have he : acc = toks := by
        have := Option.some.inj h
        exact Except.ok.inj this
      refine ⟨[], by rw [he, List.append_nil], ?_⟩
      simp [spansChain, hend]
    · rw [if_neg hend] at h
      cases hbm : Lexer.bestMatch templates text pc with
      | none =>
        rw [hbm] at h
        dsimp only at h
        exact absurd (Option.some.inj h) (by intro hx; exact Except.noConfusion hx)
      | some b =>
        rw [hbm] at h
        dsimp only at h
        by_cases h0 : b.lexeme.length = 0
        · rw [if_pos h0] at h
          exact absurd (Option.some.inj h) (by intro hx; exact Except.noConfusion hx)
        · rw [if_neg h0] at h
          obtain ⟨rest, hts, hchain⟩ := ih (pc.accept b) (acc ++ [b]) toks h
          refine ⟨b :: rest, by rw [hts, List.append_assoc]; rfl, ?_⟩
          unfold spansChain
          have hs : b.start = pc.start := (bestMatch_token_fields hbm).1
          rw [accept_start] at hchain
          rw [hchain]
          rw [hs]
          simp [Nat.beq_refl]

/-! ### Claim theorems -/

/-- Claim C1, counterexample to the claim as stated: templates KEYWORD (the
literal `for`, declared first) and WORD (`[a-z]+`, declared second) both
match the input `for` with identical length 3; the claim says the earliest
declared template must win, but tokenize selects the WORD token.  The tie in
`Lexer.__best` (`best if len(best.lexeme) > len(other.lexeme) else other`)
goes to `other`, i.e. to the latest declared template, as the module's own
doctest also shows (`FOR` declared last beats `IDENTIFIER` on `for`). -/
theorem tie_break_first_wins_counterexample :
    tplKEYWORD.matchAt ['f', 'o', 'r'] 0 1 1 =
      some ⟨"KEYWORD", ['f', 'o', 'r'], 0, 3, 1, 1⟩
    ∧ tplWORD.matchAt ['f', 'o', 'r'] 0 1 1 =
      some ⟨"WORD", ['f', 'o', 'r'], 0, 3, 1, 1⟩
    ∧ (Lexer.mk [tplKEYWORD, tplWORD]).tokenize ['f', 'o', 'r'] [] =
      some (Except.ok [⟨"WORD", ['f', 'o', 'r'], 0, 3, 1, 1⟩])
    ∧ "WORD" ≠ "KEYWORD" :=
  ⟨rfl, rfl, rfl, by decide⟩

/-- Claim C1 as amended: at every scan position where all non-empty matches
have the same lexeme length, the disambiguation loop of tokenize selects the
token of the LAST template (in declaration order) that produced a non-empty
match — not the first. -/
theorem bestMatch_tie_selects_last (templates : List TokenTemplate)
    (text : List Char) (pc : ProgramCounter) (L : Nat)
    (hTie : ∀ u ∈ truthyMatches templates text pc, u.lexeme.length = L) :
    Lexer.bestMatch templates text pc = lastTok (truthyMatches templates text pc) := by
  unfold Lexer.bestMatch
  unfold truthyMatches at hTie ⊢
  rw [foldl_scanStep_tie text pc L templates none hTie
    (by intro b hb; exact absurd hb (by simp))]
  cases lastTok (templates.filterMap (fun t => truthyTok t text pc)) with
  | none => rfl
  | some u => rfl

/-- Witness for the amended claim C1 at the concrete tie from spec scenario
3: both templates match `for` with length 3, and the selection is the last
truthy match, i.e. the WORD token. -/
theorem bestMatch_tie_selects_last_witness :
    Lexer.bestMatch [tplKEYWORD, tplWORD] ['f', 'o', 'r'] ProgramCounter.init =
      lastTok (truthyMatches [tplKEYWORD, tplWORD] ['f', 'o', 'r'] ProgramCounter.init) :=
  bestMatch_tie_selects_last [tplKEYWORD, tplWORD] ['f', 'o', 'r']
    ProgramCounter.init 3 (by decide)

/-- Claim C2, counterexample to the claim as stated: template A (literal
`abc`, raw span 3, transform shrinking the value to the single character `x`)
and template B (literal `ab`, raw span 2) both match at offset 0 of `abc`;
the claim says the strictly longer RAW match must win regardless of any
transform, but tokenize selects B's token: `Lexer.__best` compares
`len(lexeme)` AFTER the transform (1 against 2), not the raw spans. -/
theorem longest_raw_match_counterexample :
    tplA3.matchAt ['a', 'b', 'c'] 0 1 1 = some ⟨"A", ['x'], 0, 3, 1, 1⟩
    ∧ tplB2.matchAt ['a', 'b', 'c'] 0 1 1 = some ⟨"B", ['a', 'b'], 0, 2, 1, 1⟩
    ∧ (3 : Nat) - 0 > 2 - 0
    ∧ (Lexer.mk [tplA3, tplB2, tplC1]).tokenize ['a', 'b', 'c'] [] =
      some (Except.ok [⟨"B", ['a', 'b'], 0, 2, 1, 1⟩, ⟨"C", ['c'], 2, 3, 1, 3⟩])
    ∧ "B" ≠ "A" :=
  ⟨rfl, rfl, by decide, rfl, by decide⟩

/-- Claim C2 as amended: the disambiguation loop maximizes the length of the
token's `lexeme`, i.e. the value AFTER the optional transform (for templates
without a transform this equals the raw span).  A non-empty match whose
lexeme is strictly longer than that of every other non-empty match at the
offset is selected regardless of declaration order. -/
theorem bestMatch_selects_longest_lexeme (templates : List TokenTemplate)
    (text : List Char) (pc : ProgramCounter) (tokA : Token)
    (hMem : tokA ∈ truthyMatches templates text pc)
    (hDom : ∀ u ∈ truthyMatches templates text pc,
      u = tokA ∨ u.lexeme.length < tokA.lexeme.length) :
    Lexer.bestMatch templates text pc = some tokA := by
  cases hbm : Lexer.bestMatch templates text pc with
  | none =>
    rw [bestMatch_none hbm] at hMem
    exact absurd hMem (by simp)
  | some tok =>
    have hmem2 := bestMatch_mem hbm
    have hmax := bestMatch_max hbm tokA hMem
    cases hDom tok hmem2 with
    | inl h => rw [h]
    | inr h => omega

/-- Witness for the amended claim C2: in the `abc` example the B token's
lexeme (length 2) strictly dominates the transformed A lexeme (length 1), so
B is selected even though B was declared after A and A's raw span is longer. -/
theorem bestMatch_selects_longest_lexeme_witness :
    Lexer.bestMatch [tplA3, tplB2, tplC1] ['a', 'b', 'c'] ProgramCounter.init =
      some ⟨"B", ['a', 'b'], 0, 2, 1, 1⟩ :=
  bestMatch_selects_longest_lexeme [tplA3, tplB2, tplC1] ['a', 'b', 'c']
    ProgramCounter.init ⟨"B", ['a', 'b'], 0, 2, 1, 1⟩ (by decide) (by decide)

/-- Claim C3 (confirmed): if at a scan position no template matches, the
scan loop immediately returns the fatal error carrying exactly the tracker's
current 1-based line and column (whatever fuel remains), no further tokens
are produced (the error result carries no token list), and the error passes
through tokenize to the caller unchanged — the post-processing filter applies
only to a successful result. -/
theorem tokenize_fatal_on_no_match (templates : List TokenTemplate)
    (text : List Char) (pc : ProgramCounter) (acc : List Token) (fuel : Nat)
    (fts : List String) (e : UnknownSymbolError)
    (hne : pc.start ≠ text.length)
    (hnone : ∀ t ∈ templates, t.matchAt text pc.start pc.line pc.column = none) :
    Lexer.tokenizeAux templates text (fuel + 1) pc acc =
      some (Except.error ⟨pc.line, pc.column⟩)
    ∧ (Lexer.tokenizeAux templates text (text.length + 1) ProgramCounter.init [] =
        some (Except.error e) →
       (Lexer.mk templates).tokenize text fts = some (Except.error e)) := by
  constructor
  · unfold Lexer.tokenizeAux
    rw [if_neg hne, bestMatch_all_none hnone]
  · intro h
    unfold Lexer.tokenize
    dsimp only
    rw [h]
    rfl

/-- Witness for claim C3: a lexer knowing only the literal `a` fails on the
input `b` at line 1, column 1, and tokenize surfaces exactly that error. -/
theorem tokenize_fatal_on_no_match_witness :
    Lexer.tokenizeAux [tplA] ['b'] 1 ProgramCounter.init [] =
      some (Except.error ⟨1, 1⟩)
    ∧ (Lexer.mk [tplA]).tokenize ['b'] ["X"] = some (Except.error ⟨1, 1⟩) := by
  have h1 : ∀ t ∈ [tplA], t.matchAt ['b'] ProgramCounter.init.start
      ProgramCounter.init.line ProgramCounter.init.column = none := by
    intro t ht
    rw [List.mem_singleton] at ht
    subst ht
    rfl
  have hne : ProgramCounter.init.start ≠ (['b'] : List Char).length := by decide
  refine ⟨?_, ?_⟩
  · exact (tokenize_fatal_on_no_match [tplA] ['b'] ProgramCounter.init [] 0
      ["X"] ⟨1, 1⟩ hne h1).1
  · exact (tokenize_fatal_on_no_match [tplA] ['b'] ProgramCounter.init [] 1
      ["X"] ⟨1, 1⟩ hne h1).2
      ((tokenize_fatal_on_no_match [tplA] ['b'] ProgramCounter.init [] 1
        ["X"] ⟨1, 1⟩ hne h1).1)

/-- Claim C4 (confirmed): whenever tokenize completes without error, the
unfiltered accepted tokens' half-open spans partition the input exactly: the
first token starts at 0, each token starts where the previous one ended, and
the last token ends at the length of the text. -/
theorem tokenize_spans_partition (l : Lexer) (text : List Char) (toks : List Token)
    (h : l.tokenize text [] = some (Except.ok toks)) :
    spansChain 0 toks text.length = true := by
  unfold Lexer.tokenize at h
  cases haux : Lexer.tokenizeAux l.templates text (text.length + 1)
      ProgramCounter.init [] with
  | none =>
    rw [haux] at h
    exact absurd h (by simp)
  | some r =>
    rw [haux] at h
    cases r with
    | error e =>
      exact absurd (Option.some.inj h) (by intro hx; exact Except.noConfusion hx)
    | ok ts =>
      have hts : ts.filter (fun x => !(([] : List String).contains x.token_type)) = toks :=
        Except.ok.inj (Option.some.inj h)
      have hid : ts.filter (fun x => !(([] : List String).contains x.token_type)) = ts :=
        List.filter_eq_self.mpr (fun a ha => rfl)
      obtain ⟨rest, hr, hchain⟩ :=
        tokenizeAux_chain (text.length + 1) ProgramCounter.init [] ts haux
      rw [List.nil_append] at hr
      have htoks : toks = ts := by rw [← hts, hid]
      rw [htoks, hr]
      exact hchain

/-- Witness for claim C4: the two tokens produced for the input `ab` chain
from offset 0 to offset 2. -/
theorem tokenize_spans_partition_witness :
    spansChain 0 [⟨"A1", ['a'], 0, 1, 1, 1⟩, ⟨"B1", ['b'], 1, 2, 1, 2⟩] 2 = true :=
  tokenize_spans_partition (Lexer.mk [tplA, tplB]) ['a', 'b']
    [⟨"A1", ['a'], 0, 1, 1, 1⟩, ⟨"B1", ['b'], 1, 2, 1, 2⟩] rfl

/-- Claim C5 (confirmed): the line recorded on a returned token is the line
passed in plus exactly the number of newline characters in the raw matched
substring, and whenever the raw match contains at least one newline the
recorded column is 1 regardless of the column passed in. -/
theorem matchAt_newline_accounting (t : TokenTemplate) (text : List Char)
    (start line column : Nat) (tok : Token)
    (h : t.matchAt text start line column = some tok) :
    tok.line = line + countNL ((text.drop start).take (tok.end_ - start))
    ∧ (0 < countNL ((text.drop start).take (tok.end_ - start)) → tok.column = 1) := by
  obtain ⟨k, hk, rfl⟩ := matchAt_eq_some h
  have he : start + k - start = k := by omega
  dsimp only
  rw [he]
  refine ⟨rfl, ?_⟩
  intro hpos
  rw [if_neg (by omega)]

/-- Witness for claim C5: the template matching the literal `a\nb` starting
at line 1, column 7 yields a token on line 2 with column reset to 1. -/
theorem matchAt_newline_accounting_witness :
    (⟨"NL", ['a', '\n', 'b'], 0, 3, 2, 1⟩ : Token).line =
      1 + countNL (((['a', '\n', 'b'] : List Char).drop 0).take (3 - 0))
    ∧ (0 < countNL (((['a', '\n', 'b'] : List Char).drop 0).take (3 - 0)) →
       (⟨"NL", ['a', '\n', 'b'], 0, 3, 2, 1⟩ : Token).column = 1) :=
  matchAt_newline_accounting tplNL ['a', '\n', 'b'] 0 1 7
    ⟨"NL", ['a', '\n', 'b'], 0, 3, 2, 1⟩ rfl

/-- Claim C6 (confirmed): for every tracker state and every token with a
well-formed span, accept sets the column to 1 when the token's line differs
from the tracker's current line and otherwise advances it by the raw matched
length `end - start`, and in both cases then sets the offset to the token's
end and the line to the token's line.  (In the embedding the tracker is pure
data and `ProgramCounter.accept` is its only transition, mirroring the fact
that `accept` is the class's single mutator.) -/
theorem accept_spec (pc : ProgramCounter) (tok : Token)
    (hspan : tok.start ≤ tok.end_) :
    (pc.accept tok).start = tok.end_
    ∧ (pc.accept tok).line = tok.line
    ∧ (pc.accept tok).column =
        (if tok.line = pc.line then pc.column + (tok.end_ - tok.start) else 1) := by
  refine ⟨accept_start pc tok, accept_line pc tok, ?_⟩
  unfold ProgramCounter.accept
  by_cases h : tok.line = pc.line
  · rw [if_neg (show ¬(tok.line ≠ pc.line) from fun hne => hne h), if_pos h]
  · rw [if_pos h, if_neg h]

/-- Witness for claim C6 at a concrete tracker and token: same line, so the
column advances by the raw length 2. -/
theorem accept_spec_witness :
    ((⟨2, 2, 5⟩ : ProgramCounter).accept ⟨"X", ['a', 'b'], 2, 4, 2, 7⟩).start = 4
    ∧ ((⟨2, 2, 5⟩ : ProgramCounter).accept ⟨"X", ['a', 'b'], 2, 4, 2, 7⟩).line = 2
    ∧ ((⟨2, 2, 5⟩ : ProgramCounter).accept ⟨"X", ['a', 'b'], 2, 4, 2, 7⟩).column =
        (if (2 : Nat) = 2 then 5 + (4 - 2) else 1) :=
  accept_spec ⟨2, 2, 5⟩ ⟨"X", ['a', 'b'], 2, 4, 2, 7⟩ (by decide)

/-- Claim C7 (confirmed): the value returned by tokenize is the unfiltered
accepted-token sequence with exactly the tokens whose category is in the
filter set removed; the result is a sublist of the unfiltered sequence
(relative order preserved), and filtering by the empty set returns the
unfiltered sequence unchanged. -/
theorem tokenize_filter_behaviour (l : Lexer) (text : List Char)
    (fts : List String) (toks : List Token)
    (h : Lexer.tokenizeAux l.templates text (text.length + 1)
      ProgramCounter.init [] = some (Except.ok toks)) :
    l.tokenize text fts =
      some (Except.ok (toks.filter (fun x => !(fts.contains x.token_type))))
    ∧ List.Sublist (toks.filter (fun x => !(fts.contains x.token_type))) toks
    ∧ l.tokenize text [] = some (Except.ok toks) := by
  refine ⟨?_, List.filter_sublist _, ?_⟩
  · unfold Lexer.tokenize
    rw [h]
    rfl
  · unfold Lexer.tokenize
    rw [h]
    exact congrArg (fun ts => some (Except.ok ts))
      (List.filter_eq_self.mpr (fun a ha => rfl))

/-- Witness for claim C7 on the input `ab` with the category A1 filtered
out: the A1 token is removed, the B1 token survives in order, and the empty
filter returns both tokens. -/
theorem tokenize_filter_behaviour_witness :
    (Lexer.mk [tplA, tplB]).tokenize ['a', 'b'] ["A1"] =
      some (Except.ok (([⟨"A1", ['a'], 0, 1, 1, 1⟩, ⟨"B1", ['b'], 1, 2, 1, 2⟩] : List Token).filter
        (fun x => !((["A1"] : List String).contains x.token_type))))
    ∧ List.Sublist
        (([⟨"A1", ['a'], 0, 1, 1, 1⟩, ⟨"B1", ['b'], 1, 2, 1, 2⟩] : List Token).filter
          (fun x => !((["A1"] : List String).contains x.token_type)))
        [⟨"A1", ['a'], 0, 1, 1, 1⟩, ⟨"B1", ['b'], 1, 2, 1, 2⟩]
    ∧ (Lexer.mk [tplA, tplB]).tokenize ['a', 'b'] [] =
      some (Except.ok [⟨"A1", ['a'], 0, 1, 1, 1⟩, ⟨"B1", ['b'], 1, 2, 1, 2⟩]) :=
  tokenize_filter_behaviour (Lexer.mk [tplA, tplB]) ['a', 'b'] ["A1"]
    [⟨"A1", ['a'], 0, 1, 1, 1⟩, ⟨"B1", ['b'], 1, 2, 1, 2⟩] rfl

/-- Claim C8 (confirmed): a template match succeeds exactly when the
compiled pattern consumes a prefix of the suffix starting at the given
offset (anchored there — the result is determined by that suffix alone, no
search at later offsets), failure is the explicit `none` outcome, the token's
span length `end - start` equals the length of the raw matched substring
before any transform, and the token's value is the transform applied to the
raw substring when present and the raw substring itself otherwise. -/
theorem matchAt_anchored (t : TokenTemplate) (text : List Char)
    (start line column : Nat) (tok : Token)
    (hle : start ≤ text.length)
    (h : t.matchAt text start line column = some tok) :
    t.regular_expression.consume (text.drop start) = some (tok.end_ - tok.start)
    ∧ tok.start = start
    ∧ tok.end_ - tok.start = ((text.drop start).take (tok.end_ - tok.start)).length
    ∧ tok.lexeme = applyCallback t.callback ((text.drop start).take (tok.end_ - tok.start)) := by
  obtain ⟨k, hk, rfl⟩ := matchAt_eq_some h
  have hwf := t.regular_expression.wf _ _ hk
  rw [List.length_drop] at hwf
  dsimp only
  have he : start + k - start = k := by omega
  rw [he]
  refine ⟨hk, rfl, ?_, rfl⟩
  rw [List.length_take, List.length_drop]
  omega

/-- Witness for claim C8: the template matching the literal `12` with a
transform to the single character `q` keeps the raw span `[0, 2)` while the
lexeme is the transformed value. -/
theorem matchAt_anchored_witness :
    tplNUM.regular_expression.consume ((['1', '2'] : List Char).drop 0) = some (2 - 0)
    ∧ (⟨"NUM", ['q'], 0, 2, 1, 1⟩ : Token).start = 0
    ∧ 2 - 0 = (((['1', '2'] : List Char).drop 0).take (2 - 0)).length
    ∧ (⟨"NUM", ['q'], 0, 2, 1, 1⟩ : Token).lexeme =
        applyCallback tplNUM.callback (((['1', '2'] : List Char).drop 0).take (2 - 0)) :=
  matchAt_anchored tplNUM ['1', '2'] 0 1 1 ⟨"NUM", ['q'], 0, 2, 1, 1⟩
    (by decide) rfl

/-- Claim C9 (confirmed): tokenizing the empty string returns the empty
sequence for every lexer and every filter set; the loop guard
`start == len(text)` is true immediately, so no template is ever consulted
and no error can be raised. -/
theorem tokenize_empty_input (l : Lexer) (fts : List String) :
    l.tokenize [] fts = some (Except.ok []) := rfl

/-- Claim C10 (confirmed), both directions.  Forward: if the winner accepted
at every reachable tracker state has a non-empty span, the scan loop
terminates — fuel exceeding the remaining text length is never exhausted (in
particular the fuel `text.length + 1` used by tokenize suffices from the
initial state).  Converse: if at some reachable state the accepted winner
has an empty span (`end = start`), accepting it leaves the tracker
unchanged, and the loop never terminates — the scan returns the
fuel-exhaustion marker `none` for every fuel, both from that state and from
the initial state of the whole call. -/
theorem tokenize_progress_and_stall (templates : List TokenTemplate)
    (text : List Char) (fuel : Nat) (pc pc' : ProgramCounter) (tok : Token)
    (acc acc' acc'' : List Token) :
    ((∀ q t, Reaches templates text q →
        Lexer.acceptedBest templates text q = some t → t.start < t.end_) →
      text.length - pc.start < fuel → Reaches templates text pc →
      Lexer.tokenizeAux templates text fuel pc acc ≠ none)
    ∧ (Reaches templates text pc' → pc'.start ≠ text.length →
       Lexer.acceptedBest templates text pc' = some tok → tok.end_ = tok.start →
       pc'.accept tok = pc'
       ∧ Lexer.tokenizeAux templates text fuel pc' acc' = none
       ∧ Lexer.tokenizeAux templates text fuel ProgramCounter.init acc'' = none) := by
  constructor
  · intro H hlt hr
    exact tokenizeAux_term H fuel pc acc hlt hr
  · intro hr hne hb he
    obtain ⟨hfix, hdiv⟩ := tokenizeAux_stall hne hb he
    exact ⟨hfix, hdiv fuel acc', tokenizeAux_divergence_lift hr hdiv fuel acc''⟩

theorem reaches_single_a : ∀ q, Reaches [tplA] ['a'] q →
    q = ProgramCounter.init ∨ q = ⟨1, 1, 2⟩ := by
  intro q h
  induction h with
  | init => exact Or.inl rfl
  | @step p tok hp hne hb ih =>
    cases ih with
    | inl h0 =>
      subst h0
      have hb' : Lexer.acceptedBest [tplA] ['a'] ProgramCounter.init =
          some ⟨"A1", ['a'], 0, 1, 1, 1⟩ := rfl
      have htok : tok = ⟨"A1", ['a'], 0, 1, 1, 1⟩ :=
        (Option.some.inj (hb'.symm.trans hb)).symm
      right
      rw [htok]
      rfl
    | inr h1 =>
      rw [h1] at hne
      exact absurd rfl hne

theorem reaches_single_a_nonempty : ∀ q t, Reaches [tplA] ['a'] q →
    Lexer.acceptedBest [tplA] ['a'] q = some t → t.start < t.end_ := by
  intro q t hq hb
  cases reaches_single_a q hq with
  | inl h =>
    subst h
    have hb' : Lexer.acceptedBest [tplA] ['a'] ProgramCounter.init =
        some ⟨"A1", ['a'], 0, 1, 1, 1⟩ := rfl
    have ht : t = ⟨"A1", ['a'], 0, 1, 1, 1⟩ :=
      (Option.some.inj (hb'.symm.trans hb)).symm
    rw [ht]
    decide
  | inr h =>
    rw [h] at hb
    have hnone : Lexer.acceptedBest [tplA] ['a'] ⟨1, 1, 2⟩ = none := rfl
    rw [hnone] at hb
    exact Option.noConfusion hb

/-- Witness for claim C10.  Forward direction at the lexer knowing only the
literal `a` on input `a`, where every reachable winner is non-empty: fuel 2
is not exhausted.  Converse direction at the lexer whose only template
matches the empty string (with a transform making the lexeme truthy) on
input `a`: accepting its token does not move the tracker and the scan
returns the fuel-exhaustion marker. -/
theorem tokenize_progress_and_stall_witness :
    Lexer.tokenizeAux [tplA] ['a'] 2 ProgramCounter.init [] ≠ none
    ∧ (ProgramCounter.init.accept tokEPS = ProgramCounter.init
       ∧ Lexer.tokenizeAux [tplEPS] ['a'] 2 ProgramCounter.init [] = none
       ∧ Lexer.tokenizeAux [tplEPS] ['a'] 2 ProgramCounter.init [] = none) := by
  constructor
  · exact (tokenize_progress_and_stall [tplA] ['a'] 2 ProgramCounter.init
      ProgramCounter.init tokEPS [] [] []).1 reaches_single_a_nonempty
      (by decide) Reaches.init
  · exact (tokenize_progress_and_stall [tplEPS] ['a'] 2 ProgramCounter.init
      ProgramCounter.init tokEPS [] [] []).2 Reaches.init (by decide) rfl rfl
